import Mathlib

/-!
Formal model of the transaction protocol layer of the replicache client
(`src/transactions.ts`): the transaction lifecycle state machine, the
read / write / index capability operations, and the value encoding that
crosses the invocation-channel boundary.
-/

namespace Replicache

/-- Modelled from the spec: the `JSONValue` type of `json.js` (not under
`src/`): `null | string | boolean | number | JSONObject | JSONArray`.
Numbers are modelled as integers. -/
inductive JSONValue where
  | null : JSONValue
  | boolean : Bool → JSONValue
  | number : Int → JSONValue
  | string : String → JSONValue
  | array : List JSONValue → JSONValue
  | object : List (String × JSONValue) → JSONValue

/-- The decimal digit character for `d` (total; inputs ≥ 9 map to `'9'`). -/
def digitChar10 (d : Nat) : Char :=
  match d with
  | 0 => '0' | 1 => '1' | 2 => '2' | 3 => '3' | 4 => '4'
  | 5 => '5' | 6 => '6' | 7 => '7' | 8 => '8' | _ => '9'

/-- Numeric value of a decimal digit character. -/
def digitVal (c : Char) : Nat := c.toNat - 48

/-- Decimal digit characters of a natural number, most significant first. -/
def natChars (n : Nat) : List Char :=
  if _h : n < 10 then [digitChar10 n]
  else natChars (n / 10) ++ [digitChar10 (n % 10)]
  termination_by n
  decreasing_by exact Nat.div_lt_self (by omega) (by omega)

/-- Decimal representation of an integer (`-` sign for negatives). -/
def intChars : Int → List Char
  | .ofNat n => natChars n
  | .negSucc m => '-' :: natChars (m + 1)

/-- Characters that the JSON string encoder escapes with a backslash. -/
def escaped (c : Char) : Prop := c = '\"' ∨ c = '\\'

instance (c : Char) : Decidable (escaped c) := by
  unfold escaped; infer_instance

/-- Escape one character of a JSON string body. -/
def escapeChar (c : Char) : List Char :=
  if escaped c then ['\\', c] else [c]

/-- Escape a whole JSON string body. -/
def escapeChars : List Char → List Char
  | [] => []
  | c :: cs => escapeChar c ++ escapeChars cs

mutual
/-- Modelled from the spec: the canonical JSON text serialization
(`JSON.stringify`, an external collaborator of `src/transactions.ts`),
as a character list. -/
def jencode : JSONValue → List Char
  | .null => ['n', 'u', 'l', 'l']
  | .boolean true => ['t', 'r', 'u', 'e']
  | .boolean false => ['f', 'a', 'l', 's', 'e']
  | .number n => intChars n
  | .string s => '\"' :: (escapeChars s.data ++ ['\"'])
  | .array [] => ['[', ']']
  | .array (x :: xs) => '[' :: (jencodeElems x xs ++ [']'])
  | .object [] => ['\x7b', '\x7d']
  | .object (m :: ms) => '\x7b' :: (jencodeMembers m ms ++ ['\x7d'])
  termination_by v => sizeOf v
  decreasing_by all_goals simp_wf

/-- Comma-joined encodings of a non-empty list of array elements. -/
def jencodeElems : JSONValue → List JSONValue → List Char
  | x, [] => jencode x
  | x, y :: ys => jencode x ++ ',' :: jencodeElems y ys
  termination_by x xs => 1 + sizeOf x + sizeOf xs
  decreasing_by all_goals (simp_wf <;> omega)

/-- Comma-joined encodings of a non-empty list of object members. -/
def jencodeMembers : String × JSONValue → List (String × JSONValue) → List Char
  | (k, v), [] => '\"' :: (escapeChars k.data ++ '\"' :: ':' :: jencode v)
  | (k, v), m :: ms =>
      '\"' :: (escapeChars k.data ++ '\"' :: ':' :: jencode v) ++
        ',' :: jencodeMembers m ms
  termination_by m ms => 1 + sizeOf m + sizeOf ms
  decreasing_by all_goals (simp_wf <;> omega)
end

/-- Consume an expected single character from the front of the input. -/
def expectChar (c : Char) : List Char → Option (List Char)
  | [] => none
  | d :: rest => if d = c then some rest else none

/-- Consume an expected literal character sequence from the input. -/
def stripLit : List Char → List Char → Option (List Char)
  | [], cs => some cs
  | _ :: _, [] => none
  | l :: ls, c :: cs => if c = l then stripLit ls cs else none

/-- Parse the body of a JSON string (after the opening quote), up to and
including the closing quote; returns the unescaped body and the rest. -/
def parseStringBody : List Char → Option (List Char × List Char)
  | [] => none
  | c :: rest =>
    if c = '\"' then some ([], rest)
    else if c = '\\' then
      match rest with
      | [] => none
      | d :: rest2 =>
        if escaped d then (parseStringBody rest2).map fun p => (d :: p.1, p.2)
        else none
    else (parseStringBody rest).map fun p => (c :: p.1, p.2)

/-- Parse a maximal run of decimal digits into a natural number. -/
def parseNat (cs : List Char) : Option (Nat × List Char) :=
  let ds := cs.takeWhile Char.isDigit
  if ds.isEmpty then none
  else some (ds.foldl (fun a c => a * 10 + digitVal c) 0, cs.dropWhile Char.isDigit)

mutual
/-- Modelled from the spec: the JSON text deserializer (`JSON.parse`, an
external collaborator of `src/transactions.ts`), as fuelled recursive
descent over the character list; returns the value and remaining input. -/
def parseValue : Nat → List Char → Option (JSONValue × List Char)
  | 0, _ => none
  | Nat.succ fuel, cs =>
    match cs with
    | [] => none
    | c :: rest =>
      if c = 'n' then (stripLit ['u', 'l', 'l'] rest).map fun r => (.null, r)
      else if c = 't' then
        (stripLit ['r', 'u', 'e'] rest).map fun r => (.boolean true, r)
      else if c = 'f' then
        (stripLit ['a', 'l', 's', 'e'] rest).map fun r => (.boolean false, r)
      else if c = '\"' then
        (parseStringBody rest).map fun p => (.string ⟨p.1⟩, p.2)
      else if c = '[' then
        match rest with
        | [] => none
        | d :: rest2 =>
          if d = ']' then some (.array [], rest2)
          else
            (parseElems fuel (d :: rest2)).bind fun p =>
              (expectChar ']' p.2).map fun r => (.array p.1, r)
      else if c = '\x7b' then
        match rest with
        | [] => none
        | d :: rest2 =>
          if d = '\x7d' then some (.object [], rest2)
          else
            (parseMembers fuel (d :: rest2)).bind fun p =>
              (expectChar '\x7d' p.2).map fun r => (.object p.1, r)
      else if c = '-' then
        (parseNat rest).map fun p => (.number (-(p.1 : Int)), p.2)
      else if c.isDigit then
        (parseNat (c :: rest)).map fun p => (.number (p.1 : Int), p.2)
      else none

/-- Parse a non-empty comma-separated list of JSON values, stopping before
the first non-comma character that follows a value. -/
def parseElems : Nat → List Char → Option (List JSONValue × List Char)
  | 0, _ => none
  | Nat.succ fuel, cs =>
    (parseValue fuel cs).bind fun p =>
      match p.2 with
      | [] => some ([p.1], [])
      | d :: r2 =>
        if d = ',' then (parseElems fuel r2).map fun q => (p.1 :: q.1, q.2)
        else some ([p.1], d :: r2)

/-- Parse a non-empty comma-separated list of JSON object members. -/
def parseMembers : Nat → List Char → Option (List (String × JSONValue) × List Char)
  | 0, _ => none
  | Nat.succ fuel, cs =>
    match cs with
    | [] => none
    | c :: rest =>
      if c = '\"' then
        (parseStringBody rest).bind fun pk =>
          match pk.2 with
          | [] => none
          | d :: r2 =>
            if d = ':' then
              (parseValue fuel r2).bind fun pv =>
                match pv.2 with
                | [] => some ([(⟨pk.1⟩, pv.1)], [])
                | e :: r3 =>
                  if e = ',' then
                    (parseMembers fuel r3).map fun q =>
                      ((⟨pk.1⟩, pv.1) :: q.1, q.2)
                  else some ([(⟨pk.1⟩, pv.1)], e :: r3)
            else none
      else none
end

/-- The input begins with a character on which `List.takeWhile p` stops
(or is empty). -/
def headStops (p : Char → Bool) : List Char → Prop
  | [] => True
  | c :: _ => p c = false

/-- Modelled from the spec: `JSON.stringify` on the modelled value type,
producing the canonical JSON text. -/
def jsonStringify (v : JSONValue) : String := ⟨jencode v⟩

/-- Modelled from the spec: `JSON.parse`; succeeds exactly when the whole
input is a single JSON value. -/
def jsonParse (s : String) : Option JSONValue :=
  match parseValue (s.data.length + 1) s.data with
  | some (v, []) => some v
  | _ => none

mutual
/-- Parser fuel needed for a value (node-count measure). -/
def jsize : JSONValue → Nat
  | .null => 1
  | .boolean _ => 1
  | .number _ => 1
  | .string _ => 1
  | .array [] => 1
  | .array (x :: xs) => esize x xs + 1
  | .object [] => 1
  | .object (m :: ms) => msize m ms + 1
  termination_by v => sizeOf v
  decreasing_by all_goals simp_wf

/-- Parser fuel needed for a non-empty element list. -/
def esize : JSONValue → List JSONValue → Nat
  | x, [] => jsize x + 1
  | x, y :: ys => jsize x + esize y ys + 1
  termination_by x xs => 1 + sizeOf x + sizeOf xs
  decreasing_by all_goals (simp_wf <;> omega)

/-- Parser fuel needed for a non-empty member list. -/
def msize : String × JSONValue → List (String × JSONValue) → Nat
  | (_, v), [] => jsize v + 1
  | (_, v), m :: ms => jsize v + msize m ms + 1
  termination_by m ms => 1 + sizeOf m + sizeOf ms
  decreasing_by all_goals (simp_wf <;> omega)
end

/-- Heads that can begin an encoded JSON value. -/
def valueStart (c : Char) : Bool :=
  c = 'n' || c = 't' || c = 'f' || c = '\"' || c = '[' || c = '\x7b' ||
    c = '-' || c.isDigit

/-- RPC operation tags (`repm-invoker.ts`; the tags used by
`src/transactions.ts`). -/
inductive RPC where
  | openTransaction
  | openIndexTransaction
  | get
  | has
  | scan
  | put
  | del
  | createIndex
  | dropIndex
  | commitTransaction
  | closeTransaction
  deriving DecidableEq

/-- Modelled from the spec: scan options (`scan-options.ts`, not under
`src/`): optional index name, optional key prefix (field `prefixKey` models
the source's key-prefix option), optional start key with exclusivity, and
an optional limit. -/
structure ScanOptions where
  indexName : Option String := none
  prefixKey : Option String := none
  startKey : Option String := none
  startExclusive : Bool := false
  limit : Option Nat := none
  deriving DecidableEq

/-- Modelled from the spec: the open-transaction request payload
(`repm-invoker.ts`, not under `src/`): caller-supplied open args. -/
structure OpenTransactionRequest where
  name : String := ""
  args : String := ""
  deriving DecidableEq

/-- The get response: presence flag plus the encoded value. -/
structure GetResponse where
  has : Bool
  value : String
  deriving DecidableEq

/-- Modelled from the spec: the commit outcome returned by the engine
(`repm-invoker.ts`, not under `src/`; engine-defined). -/
structure CommitTransactionResponse where
  outcome : String
  deriving DecidableEq

/-- A scan result key: primary key, or secondary-plus-primary pair for
index scans. -/
inductive ScanKey where
  | primary (key : String)
  | secondary (secondaryKey : String) (primaryKey : String)
  deriving DecidableEq

/-- One request issued to the invocation channel, with the payload exactly
as `src/transactions.ts` sends it. -/
inductive Request where
  | openTx (name : RPC) (args : OpenTransactionRequest)
  | get (transactionId : Int) (key : String)
  | has (transactionId : Int) (key : String)
  | scan (transactionId : Int) (opts : ScanOptions)
  | put (transactionId : Int) (key : String) (value : String)
  | del (transactionId : Int) (key : String)
  | createIndex (transactionId : Int) (name : String) (prefixKey : String)
      (jsonPointer : String)
  | dropIndex (transactionId : Int) (name : String)
  | commitTransaction (transactionId : Int)
  | closeTransaction (transactionId : Int)
  deriving DecidableEq

/-- The invocation channel (`Invoke` in the source): for each operation
tag, the engine's response or failure to the request payload. The scan
entry list is the sequence of entries the engine delivers to the caller's
receiver, in delivery order. -/
structure Invoke where
  openTxFn : RPC → OpenTransactionRequest → Except String Int
  getFn : Int → String → Except String GetResponse
  hasFn : Int → String → Except String Bool
  scanFn : Int → ScanOptions → Except String (List (ScanKey × String))
  putFn : Int → String → String → Except String Unit
  delFn : Int → String → Except String Bool
  createIndexFn : Int → String → String → String → Except String Unit
  dropIndexFn : Int → String → Except String Unit
  commitFn : Int → Except String CommitTransactionResponse
  closeFn : Int → Except String Unit

/-- The mutable state of a transaction: `_transactionId` (sentinel `-1`
before open) and the `_closed` flag. -/
structure TxState where
  transactionId : Int := -1
  closed : Bool := false
  deriving DecidableEq

/-- Errors surfaced by transaction operations. -/
inductive TxError where
  | transactionClosed
  | channelFailure (msg : String)
  | decodeFailure (raw : String)
  deriving DecidableEq

/-- Outcome of one operation: its result, the requests it issued to the
channel (in order), and the post-state of the transaction. -/
structure TxResult (α : Type) where
  result : Except TxError α
  requests : List Request
  state : TxState

/-- Modelled from the spec: the lazy `ScanResult` object
(`scan-iterator.ts`, not under `src/`): construction merely captures the
options (and the should-close flag, always `false` from `scan`); the
channel and owning transaction are consulted only at iteration time. -/
structure ScanResult where
  options : Option ScanOptions
  shouldCloseTransaction : Bool

/-- Decode each delivered scan entry value; the first malformed value is a
fatal decode failure. -/
def decodeEntries : List (ScanKey × String) →
    Except TxError (List (ScanKey × JSONValue))
  | [] => .ok []
  | (k, s) :: rest =>
    match jsonParse s with
    | none => .error (.decodeFailure s)
    | some v => (decodeEntries rest).map fun ds => (k, v) :: ds

/-- Modelled from the spec: iterating the entries view of a `ScanResult`
re-checks the owning transaction's closed flag (failing with
TransactionClosed if it is set), then issues one scan request with the
captured options and the transaction id, decoding each delivered value;
returns the ordered entries and the requests issued. -/
def ScanResult.entries (r : ScanResult) (env : Invoke) (st : TxState) :
    Except TxError (List (ScanKey × JSONValue)) × List Request :=
  if st.closed then (.error .transactionClosed, [])
  else
    let opts := r.options.getD {}
    match env.scanFn st.transactionId opts with
    | .error e => (.error (.channelFailure e), [Request.scan st.transactionId opts])
    | .ok es => (decodeEntries es, [Request.scan st.transactionId opts])

namespace ReadTransactionImpl

/-- `ReadTransactionImpl.open` with an explicit `_openTransactionName`
(`RPC.OpenTransaction` for read/write transactions,
`RPC.OpenIndexTransaction` for index transactions): invokes the open tag
with the caller's args and stores the returned transaction id. -/
def openWith (name : RPC) (env : Invoke) (st : TxState)
    (args : OpenTransactionRequest) : TxResult Unit :=
  match env.openTxFn name args with
  | .ok tid => ⟨.ok (), [Request.openTx name args],
      { st with transactionId := tid }⟩
  | .error e => ⟨.error (.channelFailure e), [Request.openTx name args], st⟩

/-- `ReadTransactionImpl.open`: `_openTransactionName` is
`RPC.OpenTransaction`. -/
def openTx (env : Invoke) (st : TxState) (args : OpenTransactionRequest) :
    TxResult Unit :=
  openWith RPC.openTransaction env st args

/-- `ReadTransactionImpl.get`: guard on `closed`, then one get request; an
absent key yields `none` (not an error); a present value is decoded, a
decode failure being fatal for the call. -/
def get (env : Invoke) (st : TxState) (key : String) :
    TxResult (Option JSONValue) :=
  if st.closed then ⟨.error .transactionClosed, [], st⟩
  else
    match env.getFn st.transactionId key with
    | .error e => ⟨.error (.channelFailure e),
        [Request.get st.transactionId key], st⟩
    | .ok r =>
      if !r.has then ⟨.ok none, [Request.get st.transactionId key], st⟩
      else
        match jsonParse r.value with
        | some v => ⟨.ok (some v), [Request.get st.transactionId key], st⟩
        | none => ⟨.error (.decodeFailure r.value),
            [Request.get st.transactionId key], st⟩

/-- `ReadTransactionImpl.has`: guard on `closed`, then one has request,
returning the presence flag verbatim. -/
def has (env : Invoke) (st : TxState) (key : String) : TxResult Bool :=
  if st.closed then ⟨.error .transactionClosed, [], st⟩
  else
    match env.hasFn st.transactionId key with
    | .error e => ⟨.error (.channelFailure e),
        [Request.has st.transactionId key], st⟩
    | .ok b => ⟨.ok b, [Request.has st.transactionId key], st⟩

/-- `ReadTransactionImpl.isEmpty`: guard on `closed`, then one scan
request with `opts = \x7blimit: 1\x7d`; the `empty` flag starts `true` and the
receiver flips it to `false` on each delivered entry, so the result is
`true` exactly when no entry was delivered. -/
def isEmpty (env : Invoke) (st : TxState) : TxResult Bool :=
  if st.closed then ⟨.error .transactionClosed, [], st⟩
  else
    match env.scanFn st.transactionId { limit := some 1 } with
    | .error e => ⟨.error (.channelFailure e),
        [Request.scan st.transactionId { limit := some 1 }], st⟩
    | .ok es => ⟨.ok es.isEmpty,
        [Request.scan st.transactionId { limit := some 1 }], st⟩

/-- `ReadTransactionImpl.scan`: constructs the lazy `ScanResult` from the
options; no guard is checked and no request is issued at call time. -/
def scan (options : Option ScanOptions) : ScanResult :=
  { options := options, shouldCloseTransaction := false }

/-- The `scan` call viewed as an operation on the transaction: it returns
the `ScanResult`, issues no request, and leaves the state unchanged. -/
def scanOp (st : TxState) (options : Option ScanOptions) :
    TxResult ScanResult :=
  ⟨.ok (scan options), [], st⟩

/-- `ReadTransactionImpl.scanAll`: drains the entries view of
`scan(options)` into a list by repeated push, in iteration order. -/
def scanAll (env : Invoke) (st : TxState) (options : Option ScanOptions) :
    TxResult (List (ScanKey × JSONValue)) :=
  let it := (scan options).entries env st
  match it.1 with
  | .error e => ⟨.error e, it.2, st⟩
  | .ok entries =>
      ⟨.ok (entries.foldl (fun acc pair => acc ++ [pair]) []), it.2, st⟩

/-- `ReadTransactionImpl.close`: sets `_closed := true`, then sends the
close-transaction request; any channel failure is caught (reported only as
a diagnostic), so the call always returns successfully. -/
def close (env : Invoke) (st : TxState) : TxResult Unit :=
  let st2 := { st with closed := true }
  match env.closeFn st.transactionId with
  | .ok _ => ⟨.ok (), [Request.closeTransaction st.transactionId], st2⟩
  | .error _ => ⟨.ok (), [Request.closeTransaction st.transactionId], st2⟩

end ReadTransactionImpl

namespace WriteTransactionImpl

/-- `WriteTransactionImpl.put`: guard on `closed`, then one put request
carrying the `JSON.stringify`-encoded value. -/
def put (env : Invoke) (st : TxState) (key : String) (value : JSONValue) :
    TxResult Unit :=
  if st.closed then ⟨.error .transactionClosed, [], st⟩
  else
    match env.putFn st.transactionId key (jsonStringify value) with
    | .ok _ => ⟨.ok (),
        [Request.put st.transactionId key (jsonStringify value)], st⟩
    | .error e => ⟨.error (.channelFailure e),
        [Request.put st.transactionId key (jsonStringify value)], st⟩

/-- `WriteTransactionImpl.del`: guard on `closed`, then one del request,
returning whether a key was actually removed. -/
def del (env : Invoke) (st : TxState) (key : String) : TxResult Bool :=
  if st.closed then ⟨.error .transactionClosed, [], st⟩
  else
    match env.delFn st.transactionId key with
    | .ok ok => ⟨.ok ok, [Request.del st.transactionId key], st⟩
    | .error e => ⟨.error (.channelFailure e),
        [Request.del st.transactionId key], st⟩

/-- `WriteTransactionImpl.commit`: sets `_closed := true` (no guard), then
sends the commit-transaction request with the current id; the engine's
outcome or failure is propagated to the caller unchanged. -/
def commit (env : Invoke) (st : TxState) :
    TxResult CommitTransactionResponse :=
  let st2 := { st with closed := true }
  match env.commitFn st.transactionId with
  | .ok resp => ⟨.ok resp, [Request.commitTransaction st.transactionId], st2⟩
  | .error e => ⟨.error (.channelFailure e),
      [Request.commitTransaction st.transactionId], st2⟩

end WriteTransactionImpl

/-- The definition of an index, as passed to `createIndex` (the field
`prefixKey` models the source's optional key-prefix attribute). -/
structure CreateIndexDefinition where
  name : String
  prefixKey : Option String := none
  jsonPointer : String
  deriving DecidableEq

namespace IndexTransactionImpl

/-- `IndexTransactionImpl.open`: `_openTransactionName` is overridden to
`RPC.OpenIndexTransaction`. -/
def openTx (env : Invoke) (st : TxState) (args : OpenTransactionRequest) :
    TxResult Unit :=
  ReadTransactionImpl.openWith RPC.openIndexTransaction env st args

/-- `IndexTransactionImpl.createIndex`: guard on `closed`, then one
create-index request with the key prefix defaulted to the empty string. -/
def createIndex (env : Invoke) (st : TxState)
    (options : CreateIndexDefinition) : TxResult Unit :=
  if st.closed then ⟨.error .transactionClosed, [], st⟩
  else
    let pfx := options.prefixKey.getD ""
    match env.createIndexFn st.transactionId options.name pfx
        options.jsonPointer with
    | .ok _ => ⟨.ok (), [Request.createIndex st.transactionId options.name
        pfx options.jsonPointer], st⟩
    | .error e => ⟨.error (.channelFailure e),
        [Request.createIndex st.transactionId options.name pfx
          options.jsonPointer], st⟩

/-- `IndexTransactionImpl.dropIndex`: guard on `closed`, then one
drop-index request. -/
def dropIndex (env : Invoke) (st : TxState) (name : String) :
    TxResult Unit :=
  if st.closed then ⟨.error .transactionClosed, [], st⟩
  else
    match env.dropIndexFn st.transactionId name with
    | .ok _ => ⟨.ok (), [Request.dropIndex st.transactionId name], st⟩
    | .error e => ⟨.error (.channelFailure e),
        [Request.dropIndex st.transactionId name], st⟩

/-- `IndexTransactionImpl.commit`: identical body to the write
transaction's commit. -/
def commit (env : Invoke) (st : TxState) :
    TxResult CommitTransactionResponse :=
  let st2 := { st with closed := true }
  match env.commitFn st.transactionId with
  | .ok resp => ⟨.ok resp, [Request.commitTransaction st.transactionId], st2⟩
  | .error e => ⟨.error (.channelFailure e),
      [Request.commitTransaction st.transactionId], st2⟩

end IndexTransactionImpl

/-- One operation of any transaction kind, for lifecycle invariants. -/
inductive Op where
  | openRead (args : OpenTransactionRequest)
  | openIndex (args : OpenTransactionRequest)
  | get (key : String)
  | has (key : String)
  | isEmpty
  | scan (options : Option ScanOptions)
  | scanAll (options : Option ScanOptions)
  | put (key : String) (value : JSONValue)
  | del (key : String)
  | createIndex (definition : CreateIndexDefinition)
  | dropIndex (name : String)
  | commitWrite
  | commitIndex
  | close

/-- The post-state of one operation. -/
def stateAfter (env : Invoke) (st : TxState) : Op → TxState
  | .openRead args => (ReadTransactionImpl.openTx env st args).state
  | .openIndex args => (IndexTransactionImpl.openTx env st args).state
  | .get key => (ReadTransactionImpl.get env st key).state
  | .has key => (ReadTransactionImpl.has env st key).state
  | .isEmpty => (ReadTransactionImpl.isEmpty env st).state
  | .scan options => (ReadTransactionImpl.scanOp st options).state
  | .scanAll options => (ReadTransactionImpl.scanAll env st options).state
  | .put key value => (WriteTransactionImpl.put env st key value).state
  | .del key => (WriteTransactionImpl.del env st key).state
  | .createIndex definition =>
      (IndexTransactionImpl.createIndex env st definition).state
  | .dropIndex name => (IndexTransactionImpl.dropIndex env st name).state
  | .commitWrite => (WriteTransactionImpl.commit env st).state
  | .commitIndex => (IndexTransactionImpl.commit env st).state
  | .close => (ReadTransactionImpl.close env st).state

/-- The requests one operation issues to the channel. -/
def requestsOf (env : Invoke) (st : TxState) : Op → List Request
  | .openRead args => (ReadTransactionImpl.openTx env st args).requests
  | .openIndex args => (IndexTransactionImpl.openTx env st args).requests
  | .get key => (ReadTransactionImpl.get env st key).requests
  | .has key => (ReadTransactionImpl.has env st key).requests
  | .isEmpty => (ReadTransactionImpl.isEmpty env st).requests
  | .scan options => (ReadTransactionImpl.scanOp st options).requests
  | .scanAll options => (ReadTransactionImpl.scanAll env st options).requests
  | .put key value => (WriteTransactionImpl.put env st key value).requests
  | .del key => (WriteTransactionImpl.del env st key).requests
  | .createIndex definition =>
      (IndexTransactionImpl.createIndex env st definition).requests
  | .dropIndex name => (IndexTransactionImpl.dropIndex env st name).requests
  | .commitWrite => (WriteTransactionImpl.commit env st).requests
  | .commitIndex => (IndexTransactionImpl.commit env st).requests
  | .close => (ReadTransactionImpl.close env st).requests

/-- Whether an operation is one of the two open variants. -/
def Op.isOpen : Op → Bool
  | .openRead _ => true
  | .openIndex _ => true
  | _ => false

/-- A channel whose every call succeeds with fixed benign responses, used
to instantiate universally quantified theorems at a concrete input. -/
def pureInvoke : Invoke where
  openTxFn := fun _ _ => .ok 42
  getFn := fun _ _ => .ok ⟨false, ""⟩
  hasFn := fun _ _ => .ok false
  scanFn := fun _ _ => .ok []
  putFn := fun _ _ _ => .ok ()
  delFn := fun _ _ => .ok true
  createIndexFn := fun _ _ _ _ => .ok ()
  dropIndexFn := fun _ _ => .ok ()
  commitFn := fun _ => .ok ⟨"applied"⟩
  closeFn := fun _ => .ok ()

/-- The operations guarded by `throwIfClosed` in the source: the
read/write/index operations get, has, isEmpty, put, del, createIndex,
dropIndex. -/
def Op.guarded : Op → Bool
  | .get _ => true
  | .has _ => true
  | .isEmpty => true
  | .put _ _ => true
  | .del _ => true
  | .createIndex _ => true
  | .dropIndex _ => true
  | _ => false

/-- The specification's reading of `scanAll`: the fully drained entries
view of `scan(options)`, in scan order. -/
def scanAllSpec (env : Invoke) (st : TxState) (options : Option ScanOptions) :
    Except TxError (List (ScanKey × JSONValue)) :=
  ((ReadTransactionImpl.scan options).entries env st).1

/-- A sample representable value with nesting, strings and escapes. -/
def sampleValue : JSONValue :=
  .object [("a", .number 17), ("b", .array [.null, .boolean true,
    .string "x\"y"])]

/-- A channel whose get reports the encoding of `sampleValue` present. -/
def roundtripInvoke : Invoke :=
  { pureInvoke with getFn := fun _ _ => .ok ⟨true, jsonStringify sampleValue⟩ }

/-- A channel whose get reports the literal text `7` present. -/
def jsonGetInvoke : Invoke :=
  { pureInvoke with getFn := fun _ _ => .ok ⟨true, "7"⟩ }

/-- The three-entry scan delivery `a:1, b:2, c:3`, in key order. -/
def threeEntries : List (ScanKey × String) :=
  [(ScanKey.primary "a", "1"), (ScanKey.primary "b", "2"),
    (ScanKey.primary "c", "3")]

/-- A channel delivering the three-entry scan `a:1, b:2, c:3`. -/
def threeEntriesInvoke : Invoke :=
  { pureInvoke with scanFn := fun _ _ => Except.ok threeEntries }

theorem parseElems_succ (fuel : Nat) (cs : List Char) :
    parseElems (fuel + 1) cs = (parseValue fuel cs).bind fun p =>
      match p.2 with
      | [] => some ([p.1], [])
      | d :: r2 =>
        if d = ',' then (parseElems fuel r2).map fun q => (p.1 :: q.1, q.2)
        else some ([p.1], d :: r2) := rfl

theorem parseValue_succ (fuel : Nat) (c : Char) (rest : List Char) :
    parseValue (fuel + 1) (c :: rest) =
      (if c = 'n' then (stripLit ['u', 'l', 'l'] rest).map fun r => (.null, r)
      else if c = 't' then
        (stripLit ['r', 'u', 'e'] rest).map fun r => (.boolean true, r)
      else if c = 'f' then
        (stripLit ['a', 'l', 's', 'e'] rest).map fun r => (.boolean false, r)
      else if c = '\"' then
        (parseStringBody rest).map fun p => (.string ⟨p.1⟩, p.2)
      else if c = '[' then
        match rest with
        | [] => none
        | d :: rest2 =>
          if d = ']' then some (.array [], rest2)
          else
            (parseElems fuel (d :: rest2)).bind fun p =>
              (expectChar ']' p.2).map fun r => (.array p.1, r)
      else if c = '\x7b' then
        match rest with
        | [] => none
        | d :: rest2 =>
          if d = '\x7d' then some (.object [], rest2)
          else
            (parseMembers fuel (d :: rest2)).bind fun p =>
              (expectChar '\x7d' p.2).map fun r => (.object p.1, r)
      else if c = '-' then
        (parseNat rest).map fun p => (.number (-(p.1 : Int)), p.2)
      else if c.isDigit then
        (parseNat (c :: rest)).map fun p => (.number (p.1 : Int), p.2)
      else none) := rfl

theorem parseMembers_succ (fuel : Nat) (c : Char) (rest : List Char) :
    parseMembers (fuel + 1) (c :: rest) =
      (if c = '\"' then
        (parseStringBody rest).bind fun pk =>
          match pk.2 with
          | [] => none
          | d :: r2 =>
            if d = ':' then
              (parseValue fuel r2).bind fun pv =>
                match pv.2 with
                | [] => some ([(⟨pk.1⟩, pv.1)], [])
                | e :: r3 =>
                  if e = ',' then
                    (parseMembers fuel r3).map fun q =>
                      ((⟨pk.1⟩, pv.1) :: q.1, q.2)
                  else some ([(⟨pk.1⟩, pv.1)], e :: r3)
            else none
      else none) := rfl

theorem digitChar10_isDigit (d : Nat) (h : d < 10) :
    (digitChar10 d).isDigit = true := by
  interval_cases d <;> decide

theorem digitVal_digitChar10 (d : Nat) (h : d < 10) :
    digitVal (digitChar10 d) = d := by
  interval_cases d <;> decide

theorem ne_char_of_isDigit {c : Char} (h : c.isDigit = true) (x : Char)
    (hx : x.isDigit = false) : c ≠ x := by
  rintro rfl; rw [hx] at h; exact Bool.noConfusion h

theorem natChars_ne_nil (n : Nat) : natChars n ≠ [] := by
  rw [natChars.eq_def]; split <;> simp

theorem natChars_digits (n : Nat) : ∀ c ∈ natChars n, c.isDigit = true := by
  induction n using Nat.strong_induction_on with
  | _ n ih =>
    rw [natChars.eq_def]
    split
    · rename_i h
      intro c hc
      simp only [List.mem_singleton] at hc
      exact hc ▸ digitChar10_isDigit n h
    · rename_i h
      intro c hc
      rcases List.mem_append.1 hc with h1 | h1
      · exact ih (n / 10) (Nat.div_lt_self (by omega) (by omega)) c h1
      · simp only [List.mem_singleton] at h1
        exact h1 ▸ digitChar10_isDigit (n % 10) (Nat.mod_lt _ (by omega))

theorem natChars_foldl (n : Nat) :
    ∀ a, (natChars n).foldl (fun a c => a * 10 + digitVal c) a =
      a * 10 ^ (natChars n).length + n := by
  induction n using Nat.strong_induction_on with
  | _ n ih =>
    intro a
    rw [natChars.eq_def]
    split
    · rename_i h
      simp [List.foldl, digitVal_digitChar10 n h]
    · rename_i h
      rw [List.foldl_append, ih (n / 10) (Nat.div_lt_self (by omega) (by omega)) a]
      simp only [List.foldl, digitVal_digitChar10 (n % 10) (Nat.mod_lt _ (by omega)),
        List.length_append, List.length_singleton]
      rw [pow_succ, ← mul_assoc]
      generalize a * 10 ^ (natChars (n / 10)).length = b
      omega

theorem takeWhile_append_all {p : Char → Bool} {l1 l2 : List Char}
    (h1 : ∀ c ∈ l1, p c = true) (h2 : headStops p l2) :
    (l1 ++ l2).takeWhile p = l1 ∧ (l1 ++ l2).dropWhile p = l2 := by
  induction l1 with
  | nil =>
    cases l2 with
    | nil => simp [List.takeWhile, List.dropWhile]
    | cons c t =>
      simp only [headStops] at h2
      simp [List.takeWhile, List.dropWhile, h2]
  | cons c l1 ih =>
    have hc : p c = true := h1 c (by simp)
    have ih2 := ih (fun d hd => h1 d (by simp [hd]))
    simp [List.takeWhile, List.dropWhile, hc, ih2.1, ih2.2]

theorem parseNat_natChars (n : Nat) (rest : List Char)
    (h : headStops Char.isDigit rest) :
    parseNat (natChars n ++ rest) = some (n, rest) := by
  have htw := takeWhile_append_all (natChars_digits n) h
  rw [parseNat]
  simp only [htw.1, htw.2]
  have hne : (natChars n).isEmpty = false := by
    cases hh : natChars n with
    | nil => exact absurd hh (natChars_ne_nil n)
    | cons a t => rfl
  simp [hne, natChars_foldl n 0]

theorem parseStringBody_quote (rest : List Char) :
    parseStringBody ('\"' :: rest) = some ([], rest) := by
  rw [parseStringBody.eq_def]; simp

theorem parseStringBody_esc (c : Char) (rest : List Char) :
    parseStringBody ('\\' :: c :: rest) =
      if escaped c then (parseStringBody rest).map fun p => (c :: p.1, p.2)
      else none := by
  rw [parseStringBody.eq_def]; simp

theorem parseStringBody_other (c : Char) (rest : List Char) (h1 : c ≠ '\"')
    (h2 : c ≠ '\\') :
    parseStringBody (c :: rest) =
      (parseStringBody rest).map fun p => (c :: p.1, p.2) := by
  rw [parseStringBody.eq_def]
  simp [h1, h2]

theorem parseStringBody_escape (s : List Char) (rest : List Char) :
    parseStringBody (escapeChars s ++ '\"' :: rest) = some (s, rest) := by
  induction s with
  | nil => simp [escapeChars, parseStringBody_quote]
  | cons c s ih =>
    by_cases hc : escaped c
    · simp only [escapeChars, escapeChar, if_pos hc, List.cons_append,
        List.nil_append]
      rw [parseStringBody_esc, if_pos hc, ih]
      rfl
    · have h1 : c ≠ '\"' := fun e => hc (Or.inl e)
      have h2 : c ≠ '\\' := fun e => hc (Or.inr e)
      simp only [escapeChars, escapeChar, if_neg hc, List.cons_append,
        List.nil_append]
      rw [parseStringBody_other c _ h1 h2, ih]
      rfl

theorem jsize_pos (v : JSONValue) : 1 ≤ jsize v := by
  cases v with
  | array xs => cases xs <;> simp [jsize]
  | object ms => cases ms <;> simp [jsize]
  | _ => simp [jsize]

theorem esize_pos (x : JSONValue) (xs : List JSONValue) : 1 ≤ esize x xs := by
  cases xs <;> simp [esize]

theorem msize_pos (m : String × JSONValue) (ms : List (String × JSONValue)) :
    1 ≤ msize m ms := by
  obtain ⟨k, v⟩ := m
  cases ms <;> simp [msize]

theorem jencode_start (v : JSONValue) :
    ∃ c cs, jencode v = c :: cs ∧ valueStart c = true := by
  cases v with
  | null => exact ⟨'n', ['u', 'l', 'l'], by simp [jencode], by decide⟩
  | boolean b =>
    cases b with
    | false => exact ⟨'f', ['a', 'l', 's', 'e'], by simp [jencode], by decide⟩
    | true => exact ⟨'t', ['r', 'u', 'e'], by simp [jencode], by decide⟩
  | number n =>
    cases n with
    | ofNat m =>
      cases hh : natChars m with
      | nil => exact absurd hh (natChars_ne_nil m)
      | cons c cs =>
        refine ⟨c, cs, by simp [jencode, intChars, hh], ?_⟩
        have := natChars_digits m c (by rw [hh]; simp)
        simp [valueStart, this]
    | negSucc m =>
      exact ⟨'-', natChars (m + 1), by simp [jencode, intChars], by decide⟩
  | string s =>
    exact ⟨'\"', escapeChars s.data ++ ['\"'], by simp [jencode], by decide⟩
  | array xs =>
    cases xs with
    | nil => exact ⟨'[', [']'], by simp [jencode], by decide⟩
    | cons x xs =>
      exact ⟨'[', jencodeElems x xs ++ [']'], by simp [jencode], by decide⟩
  | object ms =>
    cases ms with
    | nil => exact ⟨'\x7b', ['\x7d'], by simp [jencode], by decide⟩
    | cons m ms =>
      exact ⟨'\x7b', jencodeMembers m ms ++ ['\x7d'], by simp [jencode],
        by decide⟩

theorem jencodeElems_start (x : JSONValue) (xs : List JSONValue) :
    ∃ c cs, jencodeElems x xs = c :: cs ∧ valueStart c = true := by
  obtain ⟨c, cs, hc, hs⟩ := jencode_start x
  cases xs with
  | nil => exact ⟨c, cs, by simp [jencodeElems, hc], hs⟩
  | cons y ys =>
    exact ⟨c, cs ++ ',' :: jencodeElems y ys, by simp [jencodeElems, hc], hs⟩

theorem jencodeMembers_start (m : String × JSONValue)
    (ms : List (String × JSONValue)) :
    ∃ cs, jencodeMembers m ms = '\"' :: cs := by
  obtain ⟨k, v⟩ := m
  cases ms with
  | nil =>
    exact ⟨escapeChars k.data ++ '\"' :: ':' :: jencode v,
      by simp [jencodeMembers]⟩
  | cons m2 ms2 =>
    exact ⟨escapeChars k.data ++ '\"' :: ':' :: (jencode v ++
      ',' :: jencodeMembers m2 ms2), by simp [jencodeMembers]⟩

theorem valueStart_not_close (c : Char) (h : valueStart c = true) :
    c ≠ ']' ∧ c ≠ '\x7d' := by
  constructor <;> rintro rfl <;> simp [valueStart] at h

theorem parseValue_digit (f : Nat) (c : Char) (cs : List Char)
    (hdig : c.isDigit = true) :
    parseValue (f + 1) (c :: cs) =
      (parseNat (c :: cs)).map fun p => (.number (p.1 : Int), p.2) := by
  have h1 := ne_char_of_isDigit hdig 'n' (by decide)
  have h2 := ne_char_of_isDigit hdig 't' (by decide)
  have h3 := ne_char_of_isDigit hdig 'f' (by decide)
  have h4 := ne_char_of_isDigit hdig '\"' (by decide)
  have h5 := ne_char_of_isDigit hdig '[' (by decide)
  have h6 := ne_char_of_isDigit hdig '\x7b' (by decide)
  have h7 := ne_char_of_isDigit hdig '-' (by decide)
  rw [parseValue.eq_def]
  simp [h1, h2, h3, h4, h5, h6, h7, hdig]

theorem parse_jencode (fuel : Nat) :
    (∀ v rest, jsize v ≤ fuel → headStops Char.isDigit rest →
      parseValue fuel (jencode v ++ rest) = some (v, rest)) ∧
    (∀ x xs r, esize x xs ≤ fuel →
      parseElems fuel (jencodeElems x xs ++ ']' :: r) = some (x :: xs, ']' :: r)) ∧
    (∀ m ms r, msize m ms ≤ fuel →
      parseMembers fuel (jencodeMembers m ms ++ '\x7d' :: r) =
        some (m :: ms, '\x7d' :: r)) := by
  induction fuel with
  | zero =>
    refine ⟨fun v _ h _ => absurd h ?_, fun x xs _ h => absurd h ?_,
      fun m ms _ h => absurd h ?_⟩
    · have := jsize_pos v; omega
    · have := esize_pos x xs; omega
    · have := msize_pos m ms; omega
  | succ f ih =>
    obtain ⟨ihv, ihe, ihm⟩ := ih
    refine ⟨?_, ?_, ?_⟩
    · intro v rest hsz hdl
      cases v with
      | null => simp [jencode, parseValue, stripLit]
      | boolean b => cases b <;> simp [jencode, parseValue, stripLit]
      | number n =>
        cases n with
        | ofNat m =>
          cases hh : natChars m with
          | nil => exact absurd hh (natChars_ne_nil m)
          | cons c cs =>
            have hdig : c.isDigit = true := natChars_digits m c (by rw [hh]; simp)
            simp only [jencode, intChars, hh, List.cons_append]
            rw [parseValue_digit f c _ hdig, ← List.cons_append, ← hh,
              parseNat_natChars m rest hdl]
            rfl
        | negSucc m =>
          simp only [jencode, intChars, List.cons_append]
          rw [parseValue.eq_def]
          simp only [List.append_assoc]
          norm_num
          rw [parseNat_natChars (m + 1) rest hdl]
          simp [Int.negSucc_eq]
      | string s =>
        simp only [jencode, List.cons_append, List.append_assoc,
          List.singleton_append]
        rw [parseValue.eq_def]
        norm_num
        rw [parseStringBody_escape s.data rest]
        rfl
      | array xs =>
        cases xs with
        | nil => simp [jencode, parseValue]
        | cons x xs =>
          simp only [jsize] at hsz
          obtain ⟨d, t, hd, hds⟩ := jencodeElems_start x xs
          have hne := (valueStart_not_close d hds).1
          simp only [jencode, List.cons_append, List.append_assoc,
            List.singleton_append]
          rw [parseValue.eq_def]
          simp only [hd, List.cons_append]
          norm_num [hne]
          rw [← List.cons_append, ← hd, ihe x xs rest (by omega)]
          simp [expectChar]
      | object ms =>
        cases ms with
        | nil => simp [jencode, parseValue]
        | cons m ms =>
          simp only [jsize] at hsz
          obtain ⟨t, hd⟩ := jencodeMembers_start m ms
          simp only [jencode, List.cons_append, List.append_assoc,
            List.singleton_append]
          rw [parseValue.eq_def]
          simp only [hd, List.cons_append]
          norm_num
          rw [← List.cons_append, ← hd, ihm m ms rest (by omega)]
          simp [expectChar]
    · intro x xs r hsz
      cases xs with
      | nil =>
        simp only [esize] at hsz
        simp only [jencodeElems]
        rw [parseElems_succ]
        rw [ihv x (']' :: r) (by omega) (by simp [headStops])]
        simp
      | cons y ys =>
        simp only [esize] at hsz
        have hxp := jsize_pos x
        simp only [jencodeElems, List.cons_append, List.append_assoc]
        rw [parseElems_succ]
        rw [ihv x (',' :: (jencodeElems y ys ++ ']' :: r)) (by omega) (by simp [headStops])]
        simp only [Option.some_bind]
        rw [if_pos trivial, ihe y ys r (by omega)]
        rfl
    · intro m ms r hsz
      obtain ⟨k, v⟩ := m
      cases ms with
      | nil =>
        simp only [msize] at hsz
        simp only [jencodeMembers, List.cons_append, List.append_assoc]
        rw [parseMembers_succ, if_pos rfl,
          parseStringBody_escape k.data (':' :: (jencode v ++ '\x7d' :: r))]
        simp only [Option.some_bind]
        rw [if_pos trivial, ihv v ('\x7d' :: r) (by omega) (by simp [headStops])]
        simp
      | cons m2 ms2 =>
        simp only [msize] at hsz
        have hmp := msize_pos m2 ms2
        simp only [jencodeMembers, List.cons_append, List.append_assoc]
        rw [parseMembers_succ, if_pos rfl,
          parseStringBody_escape k.data
            (':' :: (jencode v ++ ',' :: (jencodeMembers m2 ms2 ++ '\x7d' :: r)))]
        simp only [Option.some_bind]
        rw [if_pos trivial,
          ihv v (',' :: (jencodeMembers m2 ms2 ++ '\x7d' :: r)) (by omega)
            (by simp [headStops])]
        simp only [Option.some_bind]
        rw [if_pos trivial, ihm m2 ms2 r (by omega)]
        rfl

theorem jsize_le_length (fuel : Nat) :
    (∀ v, jsize v ≤ fuel → jsize v ≤ (jencode v).length) ∧
    (∀ x xs, esize x xs ≤ fuel →
      esize x xs ≤ (jencodeElems x xs).length + 1) ∧
    (∀ m ms, msize m ms ≤ fuel →
      msize m ms ≤ (jencodeMembers m ms).length + 1) := by
  induction fuel with
  | zero =>
    refine ⟨fun v h => absurd h ?_, fun x xs h => absurd h ?_,
      fun m ms h => absurd h ?_⟩
    · have := jsize_pos v; omega
    · have := esize_pos x xs; omega
    · have := msize_pos m ms; omega
  | succ f ih =>
    obtain ⟨ihv, ihe, ihm⟩ := ih
    refine ⟨?_, ?_, ?_⟩
    · intro v hsz
      cases v with
      | null => simp [jsize, jencode]
      | boolean b => cases b <;> simp [jsize, jencode]
      | number n =>
        have h1 : 1 ≤ (intChars n).length := by
          cases n with
          | ofNat m =>
            have := natChars_ne_nil m
            simp only [intChars]
            cases hh : natChars m with
            | nil => exact absurd hh this
            | cons c cs => simp
          | negSucc m => simp [intChars]
        simp only [jsize, jencode]
        omega
      | string s => simp [jsize, jencode]
      | array xs =>
        cases xs with
        | nil => simp [jsize, jencode]
        | cons x xs =>
          simp only [jsize] at hsz ⊢
          have := ihe x xs (by omega)
          simp only [jencode, List.length_cons, List.length_append,
            List.length_singleton]
          omega
      | object ms =>
        cases ms with
        | nil => simp [jsize, jencode]
        | cons m ms =>
          simp only [jsize] at hsz ⊢
          have := ihm m ms (by omega)
          simp only [jencode, List.length_cons, List.length_append,
            List.length_singleton]
          omega
    · intro x xs hsz
      cases xs with
      | nil =>
        simp only [esize] at hsz ⊢
        have := ihv x (by omega)
        simp only [jencodeElems]
        omega
      | cons y ys =>
        simp only [esize] at hsz ⊢
        have h1 := jsize_pos x
        have h2 := esize_pos y ys
        have := ihv x (by omega)
        have := ihe y ys (by omega)
        simp only [jencodeElems, List.length_append, List.length_cons]
        omega
    · intro m ms hsz
      obtain ⟨k, v⟩ := m
      cases ms with
      | nil =>
        simp only [msize] at hsz ⊢
        have := ihv v (by omega)
        simp only [jencodeMembers, List.length_cons, List.length_append]
        omega
      | cons m2 ms2 =>
        simp only [msize] at hsz ⊢
        have h1 := jsize_pos v
        have h2 := msize_pos m2 ms2
        have := ihv v (by omega)
        have := ihm m2 ms2 (by omega)
        simp only [jencodeMembers, List.length_cons, List.length_append]
        omega

/-- Round-trip law of the modelled value encoding: decoding the canonical
encoding of any representable value restores the value. -/
theorem jsonParse_jsonStringify (v : JSONValue) :
    jsonParse (jsonStringify v) = some v := by
  have hle : jsize v ≤ (jencode v).length := (jsize_le_length (jsize v)).1 v le_rfl
  have h := (parse_jencode ((jencode v).length + 1)).1 v [] (by omega)
    (by simp [headStops])
  rw [List.append_nil] at h
  unfold jsonParse jsonStringify
  rw [show (⟨jencode v⟩ : String).data = jencode v from rfl, h]

theorem foldl_push_eq (l : List (ScanKey × JSONValue)) :
    l.foldl (fun acc pair => acc ++ [pair]) [] = l := by
  have h : ∀ (l acc : List (ScanKey × JSONValue)),
      l.foldl (fun acc pair => acc ++ [pair]) acc = acc ++ l := by
    intro l
    induction l with
    | nil => simp
    | cons x xs ih => intro acc; simp [List.foldl, ih]
  simpa using h l []

theorem decodeEntries_keys (es : List (ScanKey × String))
    (ds : List (ScanKey × JSONValue)) (h : decodeEntries es = .ok ds) :
    ds.map Prod.fst = es.map Prod.fst := by
  induction es generalizing ds with
  | nil => simp [decodeEntries] at h; simp [← h]
  | cons e rest ih =>
    obtain ⟨k, s⟩ := e
    simp only [decodeEntries] at h
    cases hp : jsonParse s with
    | none => rw [hp] at h; exact absurd h (by simp)
    | some v =>
      rw [hp] at h
      cases hr : decodeEntries rest with
      | error e2 => rw [hr] at h; exact absurd h (by simp [Except.map])
      | ok ds2 =>
        rw [hr] at h
        simp only [Except.map] at h
        cases h
        simp [ih ds2 hr]

/-- C1: when the closed flag is true, each of get, has, isEmpty, put, del,
createIndex and dropIndex fails with TransactionClosed before any channel
interaction, issuing zero requests. -/
theorem closed_guard_rejects_and_issues_nothing (env : Invoke) (st : TxState)
    (h : st.closed = true) :
    (∀ key, (ReadTransactionImpl.get env st key).result =
        .error .transactionClosed ∧
      (ReadTransactionImpl.get env st key).requests = []) ∧
    (∀ key, (ReadTransactionImpl.has env st key).result =
        .error .transactionClosed ∧
      (ReadTransactionImpl.has env st key).requests = []) ∧
    ((ReadTransactionImpl.isEmpty env st).result = .error .transactionClosed ∧
      (ReadTransactionImpl.isEmpty env st).requests = []) ∧
    (∀ key value, (WriteTransactionImpl.put env st key value).result =
        .error .transactionClosed ∧
      (WriteTransactionImpl.put env st key value).requests = []) ∧
    (∀ key, (WriteTransactionImpl.del env st key).result =
        .error .transactionClosed ∧
      (WriteTransactionImpl.del env st key).requests = []) ∧
    (∀ d, (IndexTransactionImpl.createIndex env st d).result =
        .error .transactionClosed ∧
      (IndexTransactionImpl.createIndex env st d).requests = []) ∧
    (∀ name, (IndexTransactionImpl.dropIndex env st name).result =
        .error .transactionClosed ∧
      (IndexTransactionImpl.dropIndex env st name).requests = []) := by
  simp [ReadTransactionImpl.get, ReadTransactionImpl.has,
    ReadTransactionImpl.isEmpty, WriteTransactionImpl.put,
    WriteTransactionImpl.del, IndexTransactionImpl.createIndex,
    IndexTransactionImpl.dropIndex, h]

theorem closed_guard_witness :
    (ReadTransactionImpl.get pureInvoke ⟨7, true⟩ "k").result =
        .error .transactionClosed ∧
      (ReadTransactionImpl.get pureInvoke ⟨7, true⟩ "k").requests = [] :=
  (closed_guard_rejects_and_issues_nothing pureInvoke ⟨7, true⟩ rfl).1 "k"

/-- C2: close always reports success to the caller (channel failures are
swallowed and only logged), leaves the closed flag true regardless of the
channel outcome, and sends exactly one close-transaction request with the
current id. -/
theorem close_always_succeeds_and_closes (env : Invoke) (st : TxState) :
    (ReadTransactionImpl.close env st).result = .ok () ∧
    (ReadTransactionImpl.close env st).state.closed = true ∧
    (ReadTransactionImpl.close env st).requests =
      [Request.closeTransaction st.transactionId] := by
  unfold ReadTransactionImpl.close
  cases hres : env.closeFn st.transactionId <;> simp [hres]

/-- C3 counterexample: commit has no closed guard, so an operation other
than close (commit) still executes on an already-closed transaction,
issuing a commit-transaction request. -/
theorem commit_executes_when_closed :
    (WriteTransactionImpl.commit pureInvoke
      { transactionId := 7, closed := true }).requests =
      [Request.commitTransaction 7] := rfl

/-- C3 (amended): the closed flag is monotonic — once true it stays true
under every operation — and the guarded read/write/index operations issue
no request once closed is true; commit (and open) are not guarded and may
still execute when closed. -/
theorem closed_monotone_and_guarded (env : Invoke) (st : TxState) (op : Op)
    (h : st.closed = true) :
    (stateAfter env st op).closed = true ∧
    (op.guarded = true → requestsOf env st op = []) := by
  cases op with
  | openRead args =>
    unfold stateAfter requestsOf ReadTransactionImpl.openTx
      ReadTransactionImpl.openWith
    cases hres : env.openTxFn RPC.openTransaction args <;>
      simp [hres, h, Op.guarded]
  | openIndex args =>
    unfold stateAfter requestsOf IndexTransactionImpl.openTx
      ReadTransactionImpl.openWith
    cases hres : env.openTxFn RPC.openIndexTransaction args <;>
      simp [hres, h, Op.guarded]
  | get key =>
    simp [stateAfter, requestsOf, ReadTransactionImpl.get, h, Op.guarded]
  | has key =>
    simp [stateAfter, requestsOf, ReadTransactionImpl.has, h, Op.guarded]
  | isEmpty =>
    simp [stateAfter, requestsOf, ReadTransactionImpl.isEmpty, h, Op.guarded]
  | scan options =>
    simp [stateAfter, requestsOf, ReadTransactionImpl.scanOp, h, Op.guarded]
  | scanAll options =>
    simp [stateAfter, requestsOf, ReadTransactionImpl.scanAll,
      ScanResult.entries, h, Op.guarded]
  | put key value =>
    simp [stateAfter, requestsOf, WriteTransactionImpl.put, h, Op.guarded]
  | del key =>
    simp [stateAfter, requestsOf, WriteTransactionImpl.del, h, Op.guarded]
  | createIndex definition =>
    simp [stateAfter, requestsOf, IndexTransactionImpl.createIndex, h,
      Op.guarded]
  | dropIndex name =>
    simp [stateAfter, requestsOf, IndexTransactionImpl.dropIndex, h,
      Op.guarded]
  | commitWrite =>
    unfold stateAfter requestsOf WriteTransactionImpl.commit
    cases hres : env.commitFn st.transactionId <;> simp [hres, h, Op.guarded]
  | commitIndex =>
    unfold stateAfter requestsOf IndexTransactionImpl.commit
    cases hres : env.commitFn st.transactionId <;> simp [hres, h, Op.guarded]
  | close =>
    unfold stateAfter requestsOf ReadTransactionImpl.close
    cases hres : env.closeFn st.transactionId <;> simp [hres, h, Op.guarded]

theorem closed_monotone_witness :
    (stateAfter pureInvoke ⟨7, true⟩ Op.commitWrite).closed = true :=
  (closed_monotone_and_guarded pureInvoke ⟨7, true⟩ Op.commitWrite rfl).1

theorem get_state (env : Invoke) (st : TxState) (key : String) :
    (ReadTransactionImpl.get env st key).state = st := by
  unfold ReadTransactionImpl.get
  repeat' split
  all_goals rfl

theorem has_state (env : Invoke) (st : TxState) (key : String) :
    (ReadTransactionImpl.has env st key).state = st := by
  unfold ReadTransactionImpl.has
  repeat' split
  all_goals rfl

theorem isEmpty_state (env : Invoke) (st : TxState) :
    (ReadTransactionImpl.isEmpty env st).state = st := by
  unfold ReadTransactionImpl.isEmpty
  repeat' split
  all_goals rfl

theorem scanAll_state (env : Invoke) (st : TxState)
    (options : Option ScanOptions) :
    (ReadTransactionImpl.scanAll env st options).state = st := by
  unfold ReadTransactionImpl.scanAll
  dsimp only
  repeat' split
  all_goals rfl

theorem put_state (env : Invoke) (st : TxState) (key : String)
    (value : JSONValue) :
    (WriteTransactionImpl.put env st key value).state = st := by
  unfold WriteTransactionImpl.put
  repeat' split
  all_goals rfl

theorem del_state (env : Invoke) (st : TxState) (key : String) :
    (WriteTransactionImpl.del env st key).state = st := by
  unfold WriteTransactionImpl.del
  repeat' split
  all_goals rfl

theorem createIndex_state (env : Invoke) (st : TxState)
    (d : CreateIndexDefinition) :
    (IndexTransactionImpl.createIndex env st d).state = st := by
  unfold IndexTransactionImpl.createIndex
  dsimp only
  repeat' split
  all_goals rfl

theorem dropIndex_state (env : Invoke) (st : TxState) (name : String) :
    (IndexTransactionImpl.dropIndex env st name).state = st := by
  unfold IndexTransactionImpl.dropIndex
  repeat' split
  all_goals rfl

theorem close_state (env : Invoke) (st : TxState) :
    (ReadTransactionImpl.close env st).state = { st with closed := true } := by
  unfold ReadTransactionImpl.close
  cases hres : env.closeFn st.transactionId <;> rfl

theorem commitWrite_state (env : Invoke) (st : TxState) :
    (WriteTransactionImpl.commit env st).state = { st with closed := true } := by
  unfold WriteTransactionImpl.commit
  cases hres : env.commitFn st.transactionId <;> rfl

theorem commitIndex_state (env : Invoke) (st : TxState) :
    (IndexTransactionImpl.commit env st).state = { st with closed := true } := by
  unfold IndexTransactionImpl.commit
  cases hres : env.commitFn st.transactionId <;> rfl

/-- C4: commit (write and index alike) sets the closed flag, leaves the id
unchanged, sends exactly one commit-transaction request with the current
id, and propagates the engine's outcome or failure to the caller. -/
theorem commit_closes_then_propagates (env : Invoke) (st : TxState) :
    ((WriteTransactionImpl.commit env st).state.closed = true ∧
      (WriteTransactionImpl.commit env st).state.transactionId =
        st.transactionId ∧
      (WriteTransactionImpl.commit env st).requests =
        [Request.commitTransaction st.transactionId] ∧
      (∀ resp, env.commitFn st.transactionId = .ok resp →
        (WriteTransactionImpl.commit env st).result = .ok resp) ∧
      (∀ e, env.commitFn st.transactionId = .error e →
        (WriteTransactionImpl.commit env st).result =
          .error (.channelFailure e))) ∧
    ((IndexTransactionImpl.commit env st).state.closed = true ∧
      (IndexTransactionImpl.commit env st).state.transactionId =
        st.transactionId ∧
      (IndexTransactionImpl.commit env st).requests =
        [Request.commitTransaction st.transactionId] ∧
      (∀ resp, env.commitFn st.transactionId = .ok resp →
        (IndexTransactionImpl.commit env st).result = .ok resp) ∧
      (∀ e, env.commitFn st.transactionId = .error e →
        (IndexTransactionImpl.commit env st).result =
          .error (.channelFailure e))) := by
  constructor
  · unfold WriteTransactionImpl.commit
    cases hres : env.commitFn st.transactionId <;> simp [hres]
  · unfold IndexTransactionImpl.commit
    cases hres : env.commitFn st.transactionId <;> simp [hres]

theorem commit_witness :
    (WriteTransactionImpl.commit pureInvoke ⟨5, false⟩).result =
      .ok ⟨"applied"⟩ ∧
    (WriteTransactionImpl.commit pureInvoke ⟨5, false⟩).state.closed = true :=
  ⟨(commit_closes_then_propagates pureInvoke ⟨5, false⟩).1.2.2.2.1
      ⟨"applied"⟩ rfl,
    (commit_closes_then_propagates pureInvoke ⟨5, false⟩).1.1⟩

/-- C5 counterexample: nothing prevents operations while the id is unset —
a get on an unopened transaction (id still the sentinel `-1`, closed
false) executes and issues a get request carrying id `-1`. -/
theorem get_executes_while_id_unset :
    (ReadTransactionImpl.get pureInvoke
        { transactionId := -1, closed := false } "k").requests =
      [Request.get (-1) "k"] := rfl

/-- C5 (amended): the id is assigned by open from the engine's response,
and no operation other than open modifies it; operations other than open
and close are however not prevented from executing while the id is unset. -/
theorem id_assigned_only_by_open (env : Invoke) (st : TxState) :
    (∀ op, Op.isOpen op = false →
      (stateAfter env st op).transactionId = st.transactionId) ∧
    (∀ name args tid, env.openTxFn name args = .ok tid →
      (ReadTransactionImpl.openWith name env st args).state.transactionId =
        tid) := by
  constructor
  · intro op hop
    cases op with
    | openRead args => simp [Op.isOpen] at hop
    | openIndex args => simp [Op.isOpen] at hop
    | get key => rw [stateAfter, get_state]
    | has key => rw [stateAfter, has_state]
    | isEmpty => rw [stateAfter, isEmpty_state]
    | scan options => rfl
    | scanAll options => rw [stateAfter, scanAll_state]
    | put key value => rw [stateAfter, put_state]
    | del key => rw [stateAfter, del_state]
    | createIndex d => rw [stateAfter, createIndex_state]
    | dropIndex name => rw [stateAfter, dropIndex_state]
    | commitWrite => rw [stateAfter, commitWrite_state]
    | commitIndex => rw [stateAfter, commitIndex_state]
    | close => rw [stateAfter, close_state]
  · intro name args tid hres
    unfold ReadTransactionImpl.openWith
    simp [hres]

theorem id_assigned_witness :
    (stateAfter pureInvoke ⟨3, false⟩ (Op.put "k" .null)).transactionId = 3 ∧
    (ReadTransactionImpl.openWith RPC.openTransaction pureInvoke ⟨-1, false⟩
      {}).state.transactionId = 42 :=
  ⟨(id_assigned_only_by_open pureInvoke ⟨3, false⟩).1 (Op.put "k" .null) rfl,
    (id_assigned_only_by_open pureInvoke ⟨-1, false⟩).2
      RPC.openTransaction {} 42 rfl⟩

/-- C6: on an open transaction, get issues exactly one get request; an
absent key yields `none` without error; a present value is decoded and
returned; a decode failure is a fatal error for the call. -/
theorem get_sends_one_request_and_decodes (env : Invoke) (st : TxState)
    (key : String) (h : st.closed = false) :
    (ReadTransactionImpl.get env st key).requests =
      [Request.get st.transactionId key] ∧
    (∀ s, env.getFn st.transactionId key = .ok ⟨false, s⟩ →
      (ReadTransactionImpl.get env st key).result = .ok none) ∧
    (∀ s v, env.getFn st.transactionId key = .ok ⟨true, s⟩ →
      jsonParse s = some v →
      (ReadTransactionImpl.get env st key).result = .ok (some v)) ∧
    (∀ s, env.getFn st.transactionId key = .ok ⟨true, s⟩ →
      jsonParse s = none →
      (ReadTransactionImpl.get env st key).result =
        .error (.decodeFailure s)) := by
  refine ⟨?_, ?_, ?_, ?_⟩
  · unfold ReadTransactionImpl.get
    simp only [h, if_false, Bool.false_eq_true]
    cases hres : env.getFn st.transactionId key with
    | error e => simp [hres]
    | ok r =>
      cases hh : r.has <;> simp only [hres, hh] <;>
        cases hp : jsonParse r.value <;> simp [hp]
  · intro s hres
    unfold ReadTransactionImpl.get
    simp [h, hres]
  · intro s v hres hp
    unfold ReadTransactionImpl.get
    simp [h, hres, hp]
  · intro s hres hp
    unfold ReadTransactionImpl.get
    simp [h, hres, hp]

theorem get_decodes_witness :
    (ReadTransactionImpl.get jsonGetInvoke ⟨1, false⟩ "k").result =
      .ok (some (.number 7)) :=
  (get_sends_one_request_and_decodes jsonGetInvoke ⟨1, false⟩ "k" rfl).2.2.1
    "7" (.number 7) rfl rfl

/-- C7: the decode/encode round trip is the identity on representable
values; put sends the encoded value, and a get whose engine response
echoes that stored encoding returns a value equal to the one put. -/
theorem put_get_roundtrip (env : Invoke) (st : TxState) (k : String)
    (v : JSONValue) (h : st.closed = false) :
    jsonParse (jsonStringify v) = some v ∧
    (WriteTransactionImpl.put env st k v).requests =
      [Request.put st.transactionId k (jsonStringify v)] ∧
    (env.getFn st.transactionId k = .ok ⟨true, jsonStringify v⟩ →
      (ReadTransactionImpl.get env st k).result = .ok (some v)) := by
  refine ⟨jsonParse_jsonStringify v, ?_, ?_⟩
  · unfold WriteTransactionImpl.put
    simp only [h, if_false, Bool.false_eq_true]
    cases hres : env.putFn st.transactionId k (jsonStringify v) <;>
      simp [hres]
  · intro hres
    unfold ReadTransactionImpl.get
    simp [h, hres, jsonParse_jsonStringify v]

theorem put_get_roundtrip_witness :
    jsonParse (jsonStringify sampleValue) = some sampleValue ∧
    (ReadTransactionImpl.get roundtripInvoke ⟨3, false⟩ "k").result =
      .ok (some sampleValue) :=
  ⟨(put_get_roundtrip roundtripInvoke ⟨3, false⟩ "k" sampleValue rfl).1,
    (put_get_roundtrip roundtripInvoke ⟨3, false⟩ "k" sampleValue rfl).2.2
      rfl⟩

/-- C8: isEmpty is one scan request with limit 1 and no index name (the
primary key space), and returns true exactly when the traversal delivers
zero entries. -/
theorem isEmpty_single_scan_limit_one (env : Invoke) (st : TxState)
    (h : st.closed = false) :
    (ReadTransactionImpl.isEmpty env st).requests =
      [Request.scan st.transactionId { limit := some 1 }] ∧
    ({ limit := some 1 } : ScanOptions).indexName = none ∧
    (∀ es, env.scanFn st.transactionId { limit := some 1 } = .ok es →
      ((ReadTransactionImpl.isEmpty env st).result = .ok true ↔ es = [])) := by
  refine ⟨?_, rfl, ?_⟩
  · unfold ReadTransactionImpl.isEmpty
    simp only [h, if_false, Bool.false_eq_true]
    cases hres : env.scanFn st.transactionId { limit := some 1 } <;>
      simp [hres]
  · intro es hres
    unfold ReadTransactionImpl.isEmpty
    simp only [h, if_false, Bool.false_eq_true]
    rw [hres]
    cases es <;> simp

theorem isEmpty_witness :
    (ReadTransactionImpl.isEmpty pureInvoke ⟨2, false⟩).result = .ok true :=
  ((isEmpty_single_scan_limit_one pureInvoke ⟨2, false⟩ rfl).2.2 [] rfl).2 rfl

/-- C9: scanAll is exactly scan-then-drain — its result is the drained
entries view of `scan(options)` — and on a successful scan whose values
all decode it returns the delivered entries decoded, in delivery order. -/
theorem scanAll_is_scan_then_drain (env : Invoke) (st : TxState)
    (options : Option ScanOptions) :
    ((ReadTransactionImpl.scanAll env st options).result =
      scanAllSpec env st options) ∧
    (∀ es ds, st.closed = false →
      env.scanFn st.transactionId (options.getD {}) = .ok es →
      decodeEntries es = .ok ds →
      (ReadTransactionImpl.scanAll env st options).result = .ok ds ∧
      ds.map Prod.fst = es.map Prod.fst) := by
  constructor
  · unfold ReadTransactionImpl.scanAll scanAllSpec
    cases hit : ((ReadTransactionImpl.scan options).entries env st).1 with
    | error e => simp [hit]
    | ok entries => simp [hit, foldl_push_eq]
  · intro es ds h hres hdec
    refine ⟨?_, decodeEntries_keys es ds hdec⟩
    unfold ReadTransactionImpl.scanAll ScanResult.entries
      ReadTransactionImpl.scan
    simp [h, hres, hdec, foldl_push_eq]

theorem scanAll_witness :
    (ReadTransactionImpl.scanAll threeEntriesInvoke ⟨5, false⟩ none).result =
      .ok [(ScanKey.primary "a", .number 1), (ScanKey.primary "b", .number 2),
        (ScanKey.primary "c", .number 3)] :=
  ((scanAll_is_scan_then_drain threeEntriesInvoke ⟨5, false⟩ none).2
    threeEntries
    [(ScanKey.primary "a", .number 1), (ScanKey.primary "b", .number 2),
      (ScanKey.primary "c", .number 3)] rfl rfl rfl).1

/-- C10: on a closed transaction, scan itself neither raises nor issues a
request — it returns the lazy ScanResult and leaves the state unchanged;
the closed check is deferred to iteration of the returned sequence, which
then fails with TransactionClosed having issued no request. -/
theorem scan_defers_closed_check (env : Invoke) (st : TxState)
    (options : Option ScanOptions) (h : st.closed = true) :
    (ReadTransactionImpl.scanOp st options).result =
      .ok (ReadTransactionImpl.scan options) ∧
    (ReadTransactionImpl.scanOp st options).requests = [] ∧
    (ReadTransactionImpl.scanOp st options).state = st ∧
    ((ReadTransactionImpl.scan options).entries env st).1 =
      .error .transactionClosed ∧
    ((ReadTransactionImpl.scan options).entries env st).2 = [] := by
  refine ⟨rfl, rfl, rfl, ?_, ?_⟩ <;> simp [ScanResult.entries, h]

theorem scan_defers_witness :
    ((ReadTransactionImpl.scan none).entries pureInvoke ⟨7, true⟩).1 =
      .error .transactionClosed :=
  (scan_defers_closed_check pureInvoke ⟨7, true⟩ none rfl).2.2.2.1

end Replicache

